import Mathlib

/-!
Verification of the Automated-Threat-Intel-Pipeline correlation and
ingestion engine against its specification.

The Python sources are shallowly embedded as pure Lean functions:

* `src/correlation/diamond_correlator.py` — `DiamondCorrelator.correlate_indicator`
  becomes `correlate_indicator` over an explicit relational `Store`
  (lists of `InfraRow`, `AdversaryRow`, `EventRow` mirroring the
  `infrastructure`, `adversaries` and `events` tables).  The SQL queries
  become list filters/joins; `psycopg2` exceptions are injected through a
  `QueryFaults` record whose flags mark the two `cursor.execute` spots
  guarded by `try/except` in the source.
* `src/ingestion/feed_ingest.py` — the local dict-based dedupe
  (`{i[1]: i for i in infra_items}.values()`) becomes `dedupeByValue`,
  built from `dictInsert`/`dictOfPairs`, a faithful model of Python dict
  assignment (first-insertion key order, last assignment wins); the event
  construction loop becomes `buildFeedEventRows`.
* `src/ingestion/otx_ingest.py` — `get_or_create_adversaries` becomes a
  pure state-passing function on the adversary table; the event-link loop
  of `pipeline` becomes `buildOtxEventRows` (including the Python
  truthiness checks `if not adv_id` / `if infra_id` that also drop id 0).
* `src/ingestion/mitre_ingest.py` — the knowledge-base event insert
  becomes `mitreKnowledgeEvent`.

Machine floats carrying confidence scores are modelled as rationals;
Python's `round(x, 2)` (round half to even) is `round2`.  Database `NULL`
becomes `Option`.  Failure branches of the ingestion helpers other than
the ones a claim depends on model the exception-free executions.
-/

/-- Row of the `infrastructure` table: `infrastructure_id`, `type`,
`value`, `description`. -/
structure InfraRow where
  infrastructure_id : Nat
  itype : String
  value : String
  description : String
deriving DecidableEq, Repr

/-- Row of the `adversaries` table: `adversary_id`, `name`. -/
structure AdversaryRow where
  adversary_id : Nat
  name : String
deriving DecidableEq, Repr

/-- Row of the `events` table (columns used by the embedded code):
`description`, `adversary_id`, `infrastructure_id`, `capability_id`,
`mitre_tid`, `event_time`, `confidence_score`.  Nullable columns are
`Option`; the score is a rational. -/
structure EventRow where
  description : String
  adversary_id : Nat
  infrastructure_id : Option Nat
  capability_id : Option Nat
  mitre_tid : Option String
  event_time : Option Nat
  confidence_score : ℚ
deriving DecidableEq, Repr

/-- The relational store the correlator queries. -/
structure Store where
  infrastructure : List InfraRow
  adversaries : List AdversaryRow
  events : List EventRow
deriving Repr

/-- One raw feed record after parsing: `(type, value, description)`
tuples collected in `infra_items` / `infra_buffer` in the ingestion
scripts. -/
structure InfraItem where
  itype : String
  value : String
  description : String
deriving DecidableEq, Repr

/-- Python dict assignment `d[k] = v` on an association-list
representation: if the key is present its value is replaced in place
(key keeps its position), otherwise the pair is appended. -/
def dictInsert {β : Type} (m : List (String × β)) (k : String) (v : β) : List (String × β) :=
  if m.any (fun p => decide (p.1 = k)) then
    m.map (fun p => if p.1 = k then (k, v) else p)
  else m ++ [(k, v)]

/-- Build a Python dict from a sequence of `(key, value)` assignments in
order (dict comprehension / assignment loop). -/
def dictOfPairs {β : Type} (l : List (String × β)) : List (String × β) :=
  l.foldl (fun m p => dictInsert m p.1 p.2) []

/-- Python `d.get(k)` on the association-list dict representation. -/
def dget {β : Type} (m : List (String × β)) (k : String) : Option β :=
  (m.find? (fun p => decide (p.1 = k))).map (·.2)

/-- `feed_ingest.ingest_feodotracker` / `otx_ingest.bulk_insert_infrastructure`
local dedupe: `{item[1]: item for item in items}.values()` — a dict keyed
by indicator value, then its values in key-insertion order. -/
def dedupeByValue (items : List InfraItem) : List InfraItem :=
  (dictOfPairs (items.map (fun i => (i.value, i)))).map (·.2)

/-- `feed_ingest.ingest_feodotracker` event construction (lines 163-173):
iterate the ORIGINAL `infra_items` list, keep records whose value is a
key of `infra_map`, and emit an event row
`(desc, adv_id, infra_map[val], None, current_time, 0.95)`. -/
def buildFeedEventRows (infra_items : List InfraItem) (adv_id : Nat) (current_time : Nat)
    (infra_map : List (String × Nat)) : List EventRow :=
  infra_items.filterMap (fun item =>
    (dget infra_map item.value).map (fun iid =>
      ⟨item.description, adv_id, some iid, none, none, some current_time, 95/100⟩))

/-- One entry of `pulse_map` built in `otx_ingest.pipeline`: the pulse
author, pulse name and the pulse's parsed infrastructure records. -/
structure Pulse where
  author : String
  name : String
  infra : List InfraItem
deriving DecidableEq, Repr

/-- `otx_ingest.pipeline` event-link loop (lines 240-258): for each pulse
resolve the author through `adv_id_map` (`if not adv_id: continue`, so a
missing key or id 0 drops the pulse), then for each infrastructure record
resolve the value through `infra_id_map` (`if infra_id:`, so a missing
key or id 0 drops the record) and emit
`(f"Indicator from Pulse: {name}", adv_id, infra_id, None, now, 0.8)`. -/
def buildOtxEventRows (pulse_map : List Pulse) (adv_id_map : List (String × Nat))
    (infra_id_map : List (String × Nat)) (current_time : Nat) : List EventRow :=
  pulse_map.flatMap (fun p =>
    match dget adv_id_map p.author with
    | none => []
    | some aid =>
      if aid = 0 then []
      else
        p.infra.filterMap (fun item =>
          match dget infra_id_map item.value with
          | none => none
          | some iid =>
            if iid = 0 then none
            else some ⟨"Indicator from Pulse: " ++ p.name, aid, some iid, none, none,
                       some current_time, 8/10⟩))

/-- `mitre_ingest.ingest_mitre_data` knowledge-base relationship insert
(lines 172-179): `INSERT INTO events (adversary_id, mitre_tid,
description, confidence_score) VALUES (adv_id, tid, f"Knowledge Base:
{name} uses {tid}", 1.0)`. -/
def mitreKnowledgeEvent (name : String) (adv_id : Nat) (tid : String) : EventRow :=
  ⟨"Knowledge Base: " ++ name ++ " uses " ++ tid, adv_id, none, none, some tid, none, 1⟩

/-- `otx_ingest.get_or_create_adversaries`: dedupe the input names, fetch
the names already present, insert the missing ones (ids drawn from the
sequence starting at `nextId`), then re-fetch every requested name and
fold the rows into a `{name: id}` dict (later rows overwrite earlier
ones).  Returns `(final store, inserted names, mapping)`.  The guard
`if not adversary_names: return {}` is the empty-input branch. -/
def get_or_create_adversaries (store : List AdversaryRow) (adversary_names : List String)
    (nextId : Nat) : List AdversaryRow × List String × List (String × Nat) :=
  if adversary_names = [] then (store, [], [])
  else
    let unique_names := adversary_names.dedup
    let existing_names := (store.filter (fun r => decide (r.name ∈ unique_names))).map (·.name)
    let new_names := unique_names.filter (fun n => decide (¬ n ∈ existing_names))
    let store' :=
      if new_names = [] then store
      else store ++ new_names.mapIdx (fun i n => ⟨nextId + i, n⟩)
    let fetched := store'.filter (fun r => decide (r.name ∈ unique_names))
    let mapping := dictOfPairs (fetched.map (fun r => (r.name, r.adversary_id)))
    (store', new_names, mapping)

/-- Python `round(x, 2)` numerator: round `q` to the nearest integer,
ties to the even integer. -/
def roundHalfEven (q : ℚ) : ℤ :=
  if q - ⌊q⌋ < 1/2 then ⌊q⌋
  else if 1/2 < q - ⌊q⌋ then ⌊q⌋ + 1
  else if ⌊q⌋ % 2 = 0 then ⌊q⌋ else ⌊q⌋ + 1

/-- Python `round(x, 2)`: round to two decimal places, ties to even. -/
def round2 (q : ℚ) : ℚ := (roundHalfEven (100 * q) : ℚ) / 100

/-- One element of the `matches` list of an exact-match result:
`{"type": "direct_link", "adversary": ..., "score": ...}`. -/
structure DirectMatch where
  link_type : String
  adversary : String
  score : ℚ
deriving DecidableEq, Repr

/-- One element of the `matches` list of a heuristic result:
`{"adversary": ..., "matched_ttps": ..., "score": ...}`. -/
structure HeuristicMatch where
  adversary : String
  matched_ttps : Nat
  score : ℚ
deriving DecidableEq, Repr

/-- The four shapes of dict `correlate_indicator` can return:
`{"status": "known", "confidence": 1.0, "matches": [...]}`,
`{"status": "heuristic_match", "confidence": ..., "matches": [...]}`,
`{"status": "unknown", "confidence": 0.0}` (note: no `matches` key), and
`{"error": str(e)}`. -/
inductive CorrelationResult where
  | known (confidence : ℚ) (ms : List DirectMatch)
  | heuristicMatch (confidence : ℚ) (ms : List HeuristicMatch)
  | unknown (confidence : ℚ)
  | queryError (message : String)
deriving DecidableEq, Repr

/-- Discriminator for the `{"status": "unknown"}` result shape. -/
def CorrelationResult.isUnknown : CorrelationResult → Bool
  | .unknown _ => true
  | _ => false

/-- All confidence values carried by a correlation result: the overall
confidence followed by the per-match scores. -/
def confidenceValues : CorrelationResult → List ℚ
  | .known c ms => c :: ms.map (·.score)
  | .heuristicMatch c ms => c :: ms.map (·.score)
  | .unknown c => [c]
  | .queryError _ => []

/-- Exception injection points of `correlate_indicator`: `stage1` marks
the `try` block around the exact-match lookup and the event pivot,
`stage2` the `try` block around the heuristic query. -/
structure QueryFaults where
  stage1 : Bool
  stage2 : Bool
deriving DecidableEq, Repr

/-- Events whose `infrastructure_id` equals the given id — the pivot
query `SELECT ... FROM events e JOIN adversaries a ... WHERE
e.infrastructure_id = %s` restricted to the events table. -/
def linkingEvents (s : Store) (iid : Nat) : List EventRow :=
  s.events.filter (fun e => decide (e.infrastructure_id = some iid))

/-- The full pivot query of Stage 1: join each linking event with every
adversary row of matching id and project
`{"type": "direct_link", "adversary": a.name, "score": e.confidence_score}`. -/
def directMatches (s : Store) (iid : Nat) : List DirectMatch :=
  (linkingEvents s iid).flatMap (fun e =>
    (s.adversaries.filter (fun a => decide (a.adversary_id = e.adversary_id))).map
      (fun a => ⟨"direct_link", a.name, e.confidence_score⟩))

/-- The joined rows of the Stage-2 heuristic query before grouping: one
adversary name per (event with `mitre_tid` among the observed TTPs,
adversary row of matching id) pair. -/
def matchedAdversaryNames (s : Store) (observed : List String) : List String :=
  (s.events.filter (fun e =>
      match e.mitre_tid with
      | some t => decide (t ∈ observed)
      | none => false)).flatMap
    (fun e =>
      (s.adversaries.filter (fun a => decide (a.adversary_id = e.adversary_id))).map (·.name))

/-- `GROUP BY a.name` with `count(e.mitre_tid)`: one `(name, match_count)`
pair per distinct joined adversary name. -/
def candidateCounts (s : Store) (observed : List String) : List (String × Nat) :=
  let ns := matchedAdversaryNames s observed
  ns.dedup.map (fun n => (n, ns.count n))

/-- `ORDER BY match_count DESC` of the heuristic query (tie order is
unspecified in SQL; the embedding fixes a stable descending sort). -/
def countGE (x y : String × Nat) : Prop := y.2 ≤ x.2

instance : DecidableRel countGE := fun x y => inferInstanceAs (Decidable (y.2 ≤ x.2))

/-- `heuristic_matches.sort(key=lambda x: x['score'], reverse=True)`:
descending order on scores. -/
def scoreGE (x y : HeuristicMatch) : Prop := y.score ≤ x.score

instance : DecidableRel scoreGE := fun x y => inferInstanceAs (Decidable (y.score ≤ x.score))

instance : IsTotal HeuristicMatch scoreGE := ⟨fun a b => le_total b.score a.score⟩

instance : IsTrans HeuristicMatch scoreGE := ⟨fun _ _ _ h1 h2 => le_trans h2 h1⟩

/-- Stage 2 of `correlate_indicator`: run the grouped/ordered heuristic
query, score each candidate with `round(match_count / total_observed, 2)`,
and re-sort the match dicts by score descending (Python's stable sort). -/
def heuristicMatches (s : Store) (observed : List String) : List HeuristicMatch :=
  let total := observed.length
  let cands := (candidateCounts s observed).insertionSort countGE
  let hms := cands.map (fun c => ⟨c.1, c.2, round2 ((c.2 : ℚ) / (total : ℚ))⟩)
  hms.insertionSort scoreGE

/-- `confidence = heuristic_matches[0]['score'] if heuristic_matches else 0.0`. -/
def topScore : List HeuristicMatch → ℚ
  | [] => 0
  | m :: _ => m.score

/-- `DiamondCorrelator.correlate_indicator`.  Stage 1: first
`infrastructure` row with the requested value (`fetchone`); if found,
return status `known` with fixed confidence 1.0 and the pivot matches.
A raised exception in the Stage-1 `try` is caught, rolled back and
returned as `{"error": str(e)}`.  Stage 2 (only when Stage 1 found
nothing and `mitre_ttps` is truthy): the heuristic query; a raised
exception there is caught and rolled back, after which control FALLS
THROUGH to the final `return {"status": "unknown", "confidence": 0.0}` —
the same return reached when no TTPs were supplied. -/
def correlate_indicator (s : Store) (faults : QueryFaults) (value : String)
    (mitre_ttps : List String) : CorrelationResult :=
  if faults.stage1 then .queryError "query failed"
  else
    match s.infrastructure.find? (fun r => decide (r.value = value)) with
    | some row => .known 1 (directMatches s row.infrastructure_id)
    | none =>
      if mitre_ttps.isEmpty then .unknown 0
      else if faults.stage2 then .unknown 0
      else
        let hm := heuristicMatches s mitre_ttps
        .heuristicMatch (topScore hm) hm

/-! ### Lemmas about the Python-dict model -/

theorem dictOfPairs_append {β : Type} (l : List (String × β)) (q : String × β) :
    dictOfPairs (l ++ [q]) = dictInsert (dictOfPairs l) q.1 q.2 := by
  simp [dictOfPairs, List.foldl_append]

theorem dictInsert_fst_of_any {β : Type} (m : List (String × β)) (k : String) (v : β)
    (h : m.any (fun p => decide (p.1 = k)) = true) :
    (dictInsert m k v).map Prod.fst = m.map Prod.fst := by
  simp only [dictInsert, h, if_true]
  rw [List.map_map]
  refine List.map_congr_left (fun p _ => ?_)
  by_cases hp : p.1 = k <;> simp [hp]

theorem dictInsert_fst_of_not_any {β : Type} (m : List (String × β)) (k : String) (v : β)
    (h : m.any (fun p => decide (p.1 = k)) = false) :
    (dictInsert m k v).map Prod.fst = m.map Prod.fst ++ [k] := by
  simp only [dictInsert, h, Bool.false_eq_true, if_false, List.map_append, List.map_cons,
    List.map_nil]

/-- Invariants of dict construction: keys are distinct, the key set is the
set of assigned keys, and each entry holds the LAST pair assigned to its
key. -/
theorem dictOfPairs_spec {β : Type} (l : List (String × β)) :
    ((dictOfPairs l).map Prod.fst).Nodup ∧
    (∀ k, k ∈ (dictOfPairs l).map Prod.fst ↔ k ∈ l.map Prod.fst) ∧
    (∀ p ∈ dictOfPairs l, (l.filter (fun q => decide (q.1 = p.1))).getLast? = some p) := by
  induction l using List.reverseRecOn with
  | nil => simp [dictOfPairs]
  | append_singleton l q IH =>
    obtain ⟨IH1, IH2, IH3⟩ := IH
    rw [dictOfPairs_append]
    cases hq : (dictOfPairs l).any (fun p => decide (p.1 = q.1)) with
    | true =>
      have hkey : q.1 ∈ (dictOfPairs l).map Prod.fst := by
        obtain ⟨p, hp, hpq⟩ := List.any_eq_true.mp hq
        exact List.mem_map.mpr ⟨p, hp, of_decide_eq_true hpq⟩
      refine ⟨?_, ?_, ?_⟩
      · rw [dictInsert_fst_of_any _ _ _ hq]; exact IH1
      · intro k
        rw [dictInsert_fst_of_any _ _ _ hq, List.map_append, List.mem_append]
        constructor
        · intro h; exact Or.inl ((IH2 k).mp h)
        · rintro (h | h)
          · exact (IH2 k).mpr h
          · simp only [List.map_cons, List.map_nil, List.mem_singleton] at h
            subst h; exact hkey
      · intro p' hp'
        simp only [dictInsert, hq, if_true, List.mem_map] at hp'
        obtain ⟨p, hp, hupd⟩ := hp'
        by_cases hpq : p.1 = q.1
        · simp only [hpq, if_true] at hupd
          have hfst : p'.1 = q.1 := by rw [← hupd]
          rw [List.filter_append, hfst]
          have : (List.filter (fun r => decide (r.1 = q.1)) [q]) = [q] := by simp
          rw [this, List.getLast?_concat, ← hupd]
        · simp only [hpq, if_false] at hupd
          subst hupd
          rw [List.filter_append]
          have : (List.filter (fun r => decide (r.1 = p.1)) [q]) = [] := by
            simp only [List.filter_cons, List.filter_nil]
            rw [decide_eq_false (fun h => hpq h.symm)]
            simp
          rw [this, List.append_nil]
          exact IH3 p hp
    | false =>
      have hnk : q.1 ∉ (dictOfPairs l).map Prod.fst := by
        intro hmem
        obtain ⟨p, hp, hpq⟩ := List.mem_map.mp hmem
        have := List.any_eq_false.mp hq p hp
        simp [hpq] at this
      refine ⟨?_, ?_, ?_⟩
      · rw [dictInsert_fst_of_not_any _ _ _ hq]
        rw [List.nodup_append]
        exact ⟨IH1, List.nodup_singleton _, by simpa [List.disjoint_singleton] using hnk⟩
      · intro k
        rw [dictInsert_fst_of_not_any _ _ _ hq, List.map_append, List.mem_append,
          List.mem_append]
        simp only [List.map_cons, List.map_nil, List.mem_singleton]
        exact or_congr_left (IH2 k)
      · intro p' hp'
        simp only [dictInsert, hq, Bool.false_eq_true, if_false, List.mem_append,
          List.mem_singleton] at hp'
        rcases hp' with hp' | hp'
        · have hne : ¬ p'.1 = q.1 := by
            have := List.any_eq_false.mp hq p' hp'
            simpa using this
          rw [List.filter_append]
          have : (List.filter (fun r => decide (r.1 = p'.1)) [q]) = [] := by
            simp only [List.filter_cons, List.filter_nil]
            rw [decide_eq_false (fun h => hne h.symm)]
            simp
          rw [this, List.append_nil]
          exact IH3 p' hp'
        · subst hp'
          rw [List.filter_append]
          have : (List.filter (fun r => decide (r.1 = (q.1, q.2).1)) [q]) = [q] := by simp
          rw [this, List.getLast?_concat]

/-! ### Consequences for the value-keyed dedupe of the ingestion scripts -/

theorem dedupe_pairs_fst (items : List InfraItem) :
    (items.map (fun i => (i.value, i))).map Prod.fst = items.map (·.value) := by
  simp [List.map_map, Function.comp]

theorem dedupe_entry_value (items : List InfraItem) :
    ∀ p ∈ dictOfPairs (items.map (fun i => (i.value, i))), p.2.value = p.1 := by
  intro p hp
  have h3 := (dictOfPairs_spec (items.map (fun i => (i.value, i)))).2.2 p hp
  have hmem := List.mem_of_getLast?_eq_some h3
  have hp' := (List.mem_filter.mp hmem).1
  obtain ⟨i, _, hi⟩ := List.mem_map.mp hp'
  rw [← hi]

theorem dedupe_values_eq_keys (items : List InfraItem) :
    (dedupeByValue items).map (·.value) =
      (dictOfPairs (items.map (fun i => (i.value, i)))).map Prod.fst := by
  unfold dedupeByValue
  rw [List.map_map]
  exact List.map_congr_left (fun p hp => dedupe_entry_value items p hp)

theorem dedupe_values_nodup (items : List InfraItem) :
    ((dedupeByValue items).map (·.value)).Nodup := by
  rw [dedupe_values_eq_keys]
  exact (dictOfPairs_spec _).1

theorem dedupe_mem_values (items : List InfraItem) (v : String) :
    v ∈ (dedupeByValue items).map (·.value) ↔ v ∈ items.map (·.value) := by
  rw [dedupe_values_eq_keys]
  rw [(dictOfPairs_spec (items.map (fun i => (i.value, i)))).2.1 v, dedupe_pairs_fst]

theorem dedupe_length (items : List InfraItem) :
    (dedupeByValue items).length = ((items.map (·.value)).dedup).length := by
  have h1 : (dedupeByValue items).length = ((dedupeByValue items).map (·.value)).length := by
    rw [List.length_map]
  rw [h1]
  refine List.Perm.length_eq ?_
  refine (List.perm_ext_iff_of_nodup (dedupe_values_nodup items) (List.nodup_dedup _)).mpr ?_
  intro v
  rw [dedupe_mem_values items v, List.mem_dedup]

theorem dedupe_last_wins (items : List InfraItem) :
    ∀ i ∈ dedupeByValue items,
      (items.filter (fun j => decide (j.value = i.value))).getLast? = some i := by
  intro i hi
  obtain ⟨p, hp, hpi⟩ := List.mem_map.mp hi
  have h3 := (dictOfPairs_spec (items.map (fun j => (j.value, j)))).2.2 p hp
  have hfil : (items.map (fun j => (j.value, j))).filter (fun q => decide (q.1 = p.1)) =
      (items.filter (fun j => decide (j.value = p.1))).map (fun j => (j.value, j)) := by
    rw [List.filter_map]
    rfl
  rw [hfil, List.getLast?_map] at h3
  obtain ⟨j, hj, hjp⟩ := Option.map_eq_some'.mp h3
  have hkey : p.1 = i.value := by
    rw [← hpi, ← hjp]
  have hij : i = j := by rw [← hpi, ← hjp]
  subst hij
  rw [← hkey]
  exact hj

/-- Claim C7: within one input batch the value-keyed dedupe keeps exactly
one survivor per distinct value — the surviving record is the last record
with that value in iteration order — so the output size equals the number
of distinct values, and the output values are exactly the input values. -/
theorem dedupeByValue_one_survivor_per_value (items : List InfraItem) :
    ((dedupeByValue items).map (·.value)).Nodup ∧
    (∀ v, v ∈ (dedupeByValue items).map (·.value) ↔ v ∈ items.map (·.value)) ∧
    (dedupeByValue items).length = ((items.map (·.value)).dedup).length ∧
    ∀ i ∈ dedupeByValue items,
      (items.filter (fun j => decide (j.value = i.value))).getLast? = some i :=
  ⟨dedupe_values_nodup items, fun v => dedupe_mem_values items v, dedupe_length items,
   dedupe_last_wins items⟩

/-- Demo batch for the dedupe witnesses: two records share value `"a"`
with different descriptions. -/
def demoBatch : List InfraItem :=
  [⟨"IPv4", "a", "d1"⟩, ⟨"IPv4", "b", "d2"⟩, ⟨"IPv4", "a", "d3"⟩]

/-- Witness for C7 at a concrete batch: of the two records with value
`"a"` exactly the last one survives, and the output size is the number of
distinct values (2). -/
theorem dedupeByValue_one_survivor_per_value_witness :
    (dedupeByValue demoBatch).length = ((demoBatch.map (·.value)).dedup).length ∧
    (demoBatch.filter
        (fun j => decide (j.value = (⟨"IPv4", "a", "d3"⟩ : InfraItem).value))).getLast? =
      some ⟨"IPv4", "a", "d3"⟩ :=
  ⟨(dedupeByValue_one_survivor_per_value demoBatch).2.2.1,
   (dedupeByValue_one_survivor_per_value demoBatch).2.2.2 ⟨"IPv4", "a", "d3"⟩ (by decide)⟩

theorem countP_decide_eq_of_nodup (l : List String) (hl : l.Nodup) (v : String) :
    l.countP (fun x => decide (x = v)) = if v ∈ l then 1 else 0 := by
  induction l with
  | nil => simp
  | cons a l IH =>
    rw [List.nodup_cons] at hl
    rw [List.countP_cons, IH hl.2]
    by_cases hav : a = v
    · subst hav
      simp [hl.1]
    · simp [List.mem_cons, hav, Ne.symm hav]

theorem length_filterMap_eq_countP {α β : Type} (g : α → Option β) (l : List α) :
    (l.filterMap g).length = l.countP (fun a => (g a).isSome) := by
  induction l with
  | nil => rfl
  | cons a l IH =>
    rw [List.filterMap_cons, List.countP_cons]
    cases h : g a <;> simp [h, IH]

/-- Claim C10: `ingest_feodotracker` deduplicates indicator rows per
distinct value (at most one survivor, exactly one when the value occurs),
but builds event rows by iterating the original non-deduplicated list, so
each duplicate input record produces its own event referencing the
resolved identity of its value. -/
theorem feed_duplicate_records_duplicate_events (items : List InfraItem) (adv_id t : Nat)
    (infra_map : List (String × Nat)) (iid : Nat) (v : String) :
    (dedupeByValue items).countP (fun i => decide (i.value = v)) =
      min 1 (items.countP (fun i => decide (i.value = v))) ∧
    (buildFeedEventRows items adv_id t infra_map).countP
        (fun e => decide (e.infrastructure_id = some iid)) =
      items.countP (fun i => decide (dget infra_map i.value = some iid)) := by
  constructor
  · have h1 : (dedupeByValue items).countP (fun i => decide (i.value = v)) =
        ((dedupeByValue items).map (·.value)).countP (fun x => decide (x = v)) := by
      rw [List.countP_map]
      rfl
    rw [h1, countP_decide_eq_of_nodup _ (dedupe_values_nodup items) v]
    have h2 : items.countP (fun i => decide (i.value = v)) =
        (items.map (·.value)).countP (fun x => decide (x = v)) := by
      rw [List.countP_map]
      rfl
    by_cases hv : v ∈ items.map (·.value)
    · rw [if_pos ((dedupe_mem_values items v).mpr hv)]
      have hpos : 0 < items.countP (fun i => decide (i.value = v)) := by
        rw [h2]
        refine List.countP_pos_iff.mpr ?_
        exact ⟨v, hv, by simp⟩
      omega
    · rw [if_neg (fun h => hv ((dedupe_mem_values items v).mp h))]
      have hzero : items.countP (fun i => decide (i.value = v)) = 0 := by
        rw [h2]
        refine List.countP_eq_zero.mpr ?_
        intro a ha
        simp only [decide_eq_true_eq]
        intro hav
        exact hv (hav ▸ ha)
      rw [hzero]
      omega
  · induction items with
    | nil => rfl
    | cons i items IH =>
      simp only [buildFeedEventRows, List.filterMap_cons] at IH ⊢
      rw [List.countP_cons]
      cases h : dget infra_map i.value with
      | none =>
        simp only [Option.map_none']
        rw [IH]
        simp
      | some j =>
        simp only [Option.map_some']
        rw [List.countP_cons, IH]

/-- Claim C6: both event-construction paths write an attribution event
only for records whose indicator value resolved in the value-to-identity
map; unresolved records are dropped (the event count equals the count of
resolvable records), and no emitted row carries a null indicator foreign
key (for the OTX path, nor the falsy id 0). -/
theorem events_only_for_resolved_indicators (items : List InfraItem) (adv_id t : Nat)
    (infra_map : List (String × Nat)) (pulse_map : List Pulse)
    (adv_id_map infra_id_map : List (String × Nat)) :
    (buildFeedEventRows items adv_id t infra_map).all
        (fun e => e.infrastructure_id.isSome) = true ∧
    (buildFeedEventRows items adv_id t infra_map).length =
      items.countP (fun i => (dget infra_map i.value).isSome) ∧
    (buildOtxEventRows pulse_map adv_id_map infra_id_map t).all
        (fun e => e.infrastructure_id.isSome && decide (e.infrastructure_id ≠ some 0)) = true := by
  refine ⟨?_, ?_, ?_⟩
  · rw [List.all_eq_true]
    intro e he
    obtain ⟨item, _, hitem⟩ := List.mem_filterMap.mp he
    obtain ⟨iid, _, hrow⟩ := Option.map_eq_some'.mp hitem
    rw [← hrow]
    rfl
  · unfold buildFeedEventRows
    rw [length_filterMap_eq_countP]
    refine List.countP_congr (fun i _ => ?_)
    rw [Option.isSome_map']
  · rw [List.all_eq_true]
    intro e he
    obtain ⟨p, _, hin⟩ := List.mem_flatMap.mp he
    cases ha : dget adv_id_map p.author with
    | none => simp only [ha] at hin; simp at hin
    | some aid =>
      simp only [ha] at hin
      by_cases haid : aid = 0
      · rw [if_pos haid] at hin; simp at hin
      · rw [if_neg haid] at hin
        obtain ⟨item, _, hitem⟩ := List.mem_filterMap.mp hin
        cases hi : dget infra_id_map item.value with
        | none => simp only [hi] at hitem; simp at hitem
        | some iid =>
          simp only [hi] at hitem
          by_cases hiid : iid = 0
          · rw [if_pos hiid] at hitem; simp at hitem
          · rw [if_neg hiid] at hitem
            obtain rfl := Option.some_inj.mp hitem
            simp [hiid]

theorem dget_isSome_of_mem_keys {β : Type} (m : List (String × β)) (k : String)
    (h : k ∈ m.map Prod.fst) : (dget m k).isSome = true := by
  obtain ⟨p, hp, hpk⟩ := List.mem_map.mp h
  unfold dget
  cases hf : m.find? (fun q => decide (q.1 = k)) with
  | some q => rfl
  | none =>
    have := List.find?_eq_none.mp hf p hp
    simp [hpk] at this

/-- Claim C8: resolving a set of adversary names that all already exist
in the store inserts nothing, leaves the adversary table unchanged, and
still returns a mapping containing an identity for every input name. -/
theorem get_or_create_adversaries_idempotent (store : List AdversaryRow)
    (names : List String) (nextId : Nat)
    (hall : ∀ n ∈ names, ∃ r ∈ store, r.name = n) :
    (get_or_create_adversaries store names nextId).1 = store ∧
    (get_or_create_adversaries store names nextId).2.1 = [] ∧
    ∀ n ∈ names, (dget (get_or_create_adversaries store names nextId).2.2 n).isSome = true := by
  by_cases hne : names = []
  · subst hne
    refine ⟨by simp [get_or_create_adversaries], by simp [get_or_create_adversaries], ?_⟩
    intro n hn
    simp at hn
  · have hnew : names.dedup.filter
        (fun n => decide (¬ n ∈ ((store.filter
          (fun r => decide (r.name ∈ names.dedup))).map (·.name)))) = [] := by
      rw [List.filter_eq_nil_iff]
      intro n hn
      simp only [decide_eq_true_eq, not_not]
      obtain ⟨r, hr, hrn⟩ := hall n (List.mem_dedup.mp hn)
      refine List.mem_map.mpr ⟨r, List.mem_filter.mpr ⟨hr, ?_⟩, hrn⟩
      rw [hrn]
      simpa using hn
    simp only [get_or_create_adversaries, if_neg hne, hnew, if_pos]
    refine ⟨trivial, trivial, ?_⟩
    intro n hn
    refine dget_isSome_of_mem_keys _ n ?_
    rw [(dictOfPairs_spec _).2.1 n]
    obtain ⟨r, hr, hrn⟩ := hall n hn
    refine List.mem_map.mpr ⟨(r.name, r.adversary_id), ?_, hrn⟩
    refine List.mem_map.mpr ⟨r, ?_, rfl⟩
    refine List.mem_filter.mpr ⟨hr, ?_⟩
    rw [hrn]
    simp [List.mem_dedup, hn]

/-- Pre-populated adversary table for the C8 witness. -/
def demoAdvStore : List AdversaryRow := [⟨1, "APT-X"⟩, ⟨2, "APT-Y"⟩]

/-- Witness for C8: both requested names pre-exist, so nothing is
inserted, the table is unchanged and both names resolve. -/
theorem get_or_create_adversaries_idempotent_witness :
    (∀ n ∈ ["APT-Y", "APT-X"], ∃ r ∈ demoAdvStore, r.name = n) ∧
    (get_or_create_adversaries demoAdvStore ["APT-Y", "APT-X"] 7).1 = demoAdvStore ∧
    (get_or_create_adversaries demoAdvStore ["APT-Y", "APT-X"] 7).2.1 = [] ∧
    ∀ n ∈ ["APT-Y", "APT-X"],
      (dget (get_or_create_adversaries demoAdvStore ["APT-Y", "APT-X"] 7).2.2 n).isSome = true :=
  ⟨by decide, get_or_create_adversaries_idempotent demoAdvStore ["APT-Y", "APT-X"] 7 (by decide)⟩

/-! ### Stage 1 of the correlator -/

theorem filter_singleton_find {α : Type} (p : α → Bool) (l : List α)
    (h : (l.filter p).length = 1) : ∃ a, l.filter p = [a] ∧ l.find? p = some a := by
  induction l with
  | nil => simp at h
  | cons b l IH =>
    cases hb : p b with
    | true =>
      rw [List.filter_cons_of_pos hb] at h
      simp only [List.length_cons, Nat.add_left_eq_self, List.length_eq_zero] at h
      exact ⟨b, by rw [List.filter_cons_of_pos hb, h], List.find?_cons_of_pos l hb⟩
    | false =>
      rw [List.filter_cons_of_neg (by simp [hb])] at h
      obtain ⟨a, ha, hfa⟩ := IH h
      exact ⟨a, by rw [List.filter_cons_of_neg (by simp [hb]), ha],
        by rw [List.find?_cons_of_neg l (by simp [hb]), hfa]⟩

theorem flatMap_eq_map_of_singleton {α β : Type} {l : List α} {g : α → List β} {h : α → β}
    (H : ∀ a ∈ l, g a = [h a]) : l.flatMap g = l.map h := by
  induction l with
  | nil => rfl
  | cons a l IH =>
    rw [List.flatMap_cons, H a (List.mem_cons_self a l),
      IH (fun b hb => H b (List.mem_cons_of_mem a hb))]
    rfl

/-- The adversary name the Stage-1 join associates with an event's
`adversary_id` (first matching adversary row). -/
def nameOf (s : Store) (aid : Nat) : String :=
  ((s.adversaries.find? (fun a => decide (a.adversary_id = aid))).map (·.name)).getD ""

/-- Claim C1: when Stage 1 finds an exact match, the result has status
`known` with overall confidence exactly 1.0 — whatever the individual
event confidences are — and the match list has exactly one
`{adversary, score}` entry per attribution event linking the matched
indicator row, in event order, without deduplicating adversaries. -/
theorem correlate_exact_match_known (s : Store) (f2 : Bool) (v : String) (ttps : List String)
    (row : InfraRow)
    (hfind : s.infrastructure.find? (fun r => decide (r.value = v)) = some row)
    (hua : ∀ e ∈ linkingEvents s row.infrastructure_id,
      (s.adversaries.filter (fun a => decide (a.adversary_id = e.adversary_id))).length = 1) :
    correlate_indicator s ⟨false, f2⟩ v ttps =
      .known 1 ((linkingEvents s row.infrastructure_id).map
        (fun e => ⟨"direct_link", nameOf s e.adversary_id, e.confidence_score⟩)) := by
  have hdm : directMatches s row.infrastructure_id =
      (linkingEvents s row.infrastructure_id).map
        (fun e => ⟨"direct_link", nameOf s e.adversary_id, e.confidence_score⟩) := by
    unfold directMatches
    refine flatMap_eq_map_of_singleton ?_
    intro e he
    obtain ⟨a, hfa, hf⟩ := filter_singleton_find _ _ (hua e he)
    rw [hfa, List.map_cons, List.map_nil]
    unfold nameOf
    rw [hf]
    rfl
  simp [correlate_indicator, hfind, hdm]

/-- Store for the C1 witness: one known indicator linked by two events to
the same adversary with different (non-1.0) confidences. -/
def demoKnownStore : Store :=
  ⟨[⟨1, "IPv4", "1.2.3.4", "Feodo Tracker: C2"⟩], [⟨1, "APT-X"⟩],
   [⟨"e1", 1, some 1, none, none, some 5, 95/100⟩,
    ⟨"e2", 1, some 1, none, none, some 6, 1/2⟩]⟩

/-- Witness for C1: both linking events yield their own match entry (the
adversary repeats) and the confidence is 1.0 despite event scores 0.95
and 0.5. -/
theorem correlate_exact_match_known_witness :
    (demoKnownStore.infrastructure.find? (fun r => decide (r.value = "1.2.3.4")) =
      some ⟨1, "IPv4", "1.2.3.4", "Feodo Tracker: C2"⟩) ∧
    (∀ e ∈ linkingEvents demoKnownStore 1,
      (demoKnownStore.adversaries.filter
        (fun a => decide (a.adversary_id = e.adversary_id))).length = 1) ∧
    correlate_indicator demoKnownStore ⟨false, false⟩ "1.2.3.4" [] =
      .known 1 ((linkingEvents demoKnownStore
          (⟨1, "IPv4", "1.2.3.4", "Feodo Tracker: C2"⟩ : InfraRow).infrastructure_id).map
        (fun e => ⟨"direct_link", nameOf demoKnownStore e.adversary_id, e.confidence_score⟩)) :=
  ⟨by decide, by decide,
   correlate_exact_match_known demoKnownStore false "1.2.3.4" []
     ⟨1, "IPv4", "1.2.3.4", "Feodo Tracker: C2"⟩ (by decide) (by decide)⟩

/-- Claim C9: an indicator row with no linking events still yields status
`known` with confidence 1.0 and an empty match list — the verdict depends
only on the indicator row's existence. -/
theorem correlate_known_without_events (s : Store) (f2 : Bool) (v : String) (ttps : List String)
    (row : InfraRow)
    (hfind : s.infrastructure.find? (fun r => decide (r.value = v)) = some row)
    (hnoev : linkingEvents s row.infrastructure_id = []) :
    correlate_indicator s ⟨false, f2⟩ v ttps = .known 1 [] := by
  have hdm : directMatches s row.infrastructure_id = [] := by
    unfold directMatches
    rw [hnoev]
    rfl
  simp [correlate_indicator, hfind, hdm]

/-- Store for the C9 witness: the indicator row exists but the only event
references a different indicator identity. -/
def demoOrphanStore : Store :=
  ⟨[⟨5, "IPv4", "7.7.7.7", "seen once"⟩], [⟨1, "APT-X"⟩],
   [⟨"other", 1, some 9, none, none, none, 1/4⟩]⟩

/-- Witness for C9 at a concrete store. -/
theorem correlate_known_without_events_witness :
    (demoOrphanStore.infrastructure.find? (fun r => decide (r.value = "7.7.7.7")) =
      some ⟨5, "IPv4", "7.7.7.7", "seen once"⟩) ∧
    (linkingEvents demoOrphanStore 5 = []) ∧
    correlate_indicator demoOrphanStore ⟨false, false⟩ "7.7.7.7" ["T1003"] = .known 1 [] :=
  ⟨by decide, by decide,
   correlate_known_without_events demoOrphanStore false "7.7.7.7" ["T1003"]
     ⟨5, "IPv4", "7.7.7.7", "seen once"⟩ (by decide) (by decide)⟩

/-! ### Stage 2 of the correlator -/

/-- Claim C2: with no exact match and a non-empty observed TTP list, the
result is a heuristic match whose confidence is the top candidate's score
(0.0 with no candidates), whose matches are sorted by score descending,
and where every candidate's score is its matched event count divided by
the number of observed TTPs, rounded to two decimals. -/
theorem correlate_heuristic_scoring (s : Store) (v : String) (obs : List String)
    (hfind : s.infrastructure.find? (fun r => decide (r.value = v)) = none)
    (hne : obs ≠ []) :
    correlate_indicator s ⟨false, false⟩ v obs =
      .heuristicMatch (topScore (heuristicMatches s obs)) (heuristicMatches s obs) ∧
    List.Sorted scoreGE (heuristicMatches s obs) ∧
    ∀ m ∈ heuristicMatches s obs,
      m.matched_ttps = (matchedAdversaryNames s obs).count m.adversary ∧
      m.score = round2 ((m.matched_ttps : ℚ) / (obs.length : ℚ)) := by
  refine ⟨?_, ?_, ?_⟩
  · cases obs with
    | nil => exact absurd rfl hne
    | cons a l => simp [correlate_indicator, hfind]
  · unfold heuristicMatches
    exact List.sorted_insertionSort scoreGE _
  · intro m hm
    unfold heuristicMatches at hm
    rw [List.mem_insertionSort] at hm
    obtain ⟨c, hc, hmk⟩ := List.mem_map.mp hm
    rw [List.mem_insertionSort] at hc
    unfold candidateCounts at hc
    obtain ⟨n, _, hcn⟩ := List.mem_map.mp hc
    rw [← hmk, ← hcn]
    exact ⟨rfl, rfl⟩

/-- Store for the C2/C5 heuristic witnesses: adversary APT-Y has
knowledge-base events for techniques T1003 and T1059. -/
def demoHeuristicStore : Store :=
  ⟨[], [⟨1, "APT-Y"⟩],
   [⟨"kb1", 1, none, none, some "T1003", none, 1⟩,
    ⟨"kb2", 1, none, none, some "T1059", none, 1⟩]⟩

/-- Witness for C2: observing three TTPs of which two match APT-Y yields
a heuristic match scored `round(2/3, 2)` with the stated properties. -/
theorem correlate_heuristic_scoring_witness :
    (demoHeuristicStore.infrastructure.find?
      (fun r => decide (r.value = "9.9.9.9")) = none) ∧
    (["T1003", "T1059", "T1071"] ≠ ([] : List String)) ∧
    correlate_indicator demoHeuristicStore ⟨false, false⟩ "9.9.9.9" ["T1003", "T1059", "T1071"] =
      .heuristicMatch
        (topScore (heuristicMatches demoHeuristicStore ["T1003", "T1059", "T1071"]))
        (heuristicMatches demoHeuristicStore ["T1003", "T1059", "T1071"]) ∧
    List.Sorted scoreGE (heuristicMatches demoHeuristicStore ["T1003", "T1059", "T1071"]) ∧
    ∀ m ∈ heuristicMatches demoHeuristicStore ["T1003", "T1059", "T1071"],
      m.matched_ttps =
        (matchedAdversaryNames demoHeuristicStore ["T1003", "T1059", "T1071"]).count m.adversary ∧
      m.score = round2 ((m.matched_ttps : ℚ) / ((["T1003", "T1059", "T1071"] : List String).length : ℚ)) :=
  ⟨by decide, by decide,
   correlate_heuristic_scoring demoHeuristicStore "9.9.9.9" ["T1003", "T1059", "T1071"]
     (by decide) (by decide)⟩

/-- Claim C3 (amended): with no exact match the fallbacks are split — no
observed TTPs yields status `unknown` with confidence 0.0 (and no match
list at all), while observed TTPs with zero Stage-2 candidates yield
status `heuristic_match` with confidence 0.0 and an empty match list. -/
theorem correlate_no_match_fallbacks (s : Store) (v : String) (obs : List String)
    (hfind : s.infrastructure.find? (fun r => decide (r.value = v)) = none) :
    (obs = [] → correlate_indicator s ⟨false, false⟩ v obs = .unknown 0) ∧
    (obs ≠ [] → matchedAdversaryNames s obs = [] →
      correlate_indicator s ⟨false, false⟩ v obs = .heuristicMatch 0 []) := by
  constructor
  · rintro rfl
    simp [correlate_indicator, hfind]
  · intro hne hmn
    have hhm : heuristicMatches s obs = [] := by
      unfold heuristicMatches candidateCounts
      rw [hmn]
      rfl
    cases obs with
    | nil => exact absurd rfl hne
    | cons a l => simp [correlate_indicator, hfind, hhm, topScore]

/-- Counterexample to claim C3 as stated: with no exact match, an
observed TTP list, and zero Stage-2 candidates, the code returns status
`heuristic_match` (confidence 0.0, empty matches), not `unknown`. -/
theorem correlate_zero_candidates_not_unknown :
    correlate_indicator ⟨[], [], []⟩ ⟨false, false⟩ "9.9.9.9" ["T1003"] =
      .heuristicMatch 0 [] ∧
    (correlate_indicator ⟨[], [], []⟩ ⟨false, false⟩ "9.9.9.9" ["T1003"]).isUnknown = false := by
  constructor
  · simp [correlate_indicator, heuristicMatches, candidateCounts, matchedAdversaryNames,
      topScore]
  · simp [correlate_indicator, heuristicMatches, candidateCounts, matchedAdversaryNames,
      topScore, CorrelationResult.isUnknown]

/-- Witness for the amended C3 at concrete inputs: both fallback
branches. -/
theorem correlate_no_match_fallbacks_witness :
    correlate_indicator ⟨[], [], []⟩ ⟨false, false⟩ "8.8.8.8" [] = .unknown 0 ∧
    correlate_indicator ⟨[], [], []⟩ ⟨false, false⟩ "8.8.8.8" ["T1059"] =
      .heuristicMatch 0 [] :=
  ⟨(correlate_no_match_fallbacks ⟨[], [], []⟩ "8.8.8.8" [] (by decide)).1 rfl,
   (correlate_no_match_fallbacks ⟨[], [], []⟩ "8.8.8.8" ["T1059"] (by decide)).2
     (by decide) (by decide)⟩

/-- Claim C4 (evidence of the code bug): a Stage-2 query failure is
caught and rolled back but then falls through to the final
`{"status": "unknown", "confidence": 0.0}` return — indistinguishable
from a genuine no-match — whereas a Stage-1 failure does return the
distinct `{"error": ...}` result. -/
theorem stage2_failure_reported_as_unknown :
    correlate_indicator ⟨[], [], []⟩ ⟨false, true⟩ "9.9.9.9" ["T1003"] = .unknown 0 ∧
    (correlate_indicator ⟨[], [], []⟩ ⟨false, true⟩ "9.9.9.9" ["T1003"]).isUnknown = true ∧
    correlate_indicator ⟨[], [], []⟩ ⟨true, false⟩ "9.9.9.9" ["T1003"] =
      .queryError "query failed" := by
  refine ⟨rfl, rfl, rfl⟩

/-! ### Confidence-score bounds -/

theorem roundHalfEven_nonneg {x : ℚ} (h : 0 ≤ x) : 0 ≤ roundHalfEven x := by
  unfold roundHalfEven
  have hf : (0 : ℤ) ≤ ⌊x⌋ := Int.floor_nonneg.mpr h
  split_ifs <;> omega

theorem roundHalfEven_le_of_le {x : ℚ} {n : ℤ} (hx : x ≤ (n : ℚ)) : roundHalfEven x ≤ n := by
  unfold roundHalfEven
  have hfl : ⌊x⌋ ≤ n := by
    have := Int.floor_mono hx
    rwa [Int.floor_intCast] at this
  have hstrict : (1 : ℚ)/2 ≤ x - ⌊x⌋ → ⌊x⌋ < n := by
    intro hge
    have hlt : (⌊x⌋ : ℚ) < x := by linarith
    exact_mod_cast hlt.trans_le hx
  split_ifs with h1 h2 h3
  · exact hfl
  · have := hstrict (le_of_lt h2)
    omega
  · exact hfl
  · have := hstrict (le_of_not_lt h1)
    omega

theorem round2_bounds {q : ℚ} (h0 : 0 ≤ q) (h1 : q ≤ 1) :
    0 ≤ round2 q ∧ round2 q ≤ 1 := by
  unfold round2
  constructor
  · refine div_nonneg ?_ (by norm_num)
    have := roundHalfEven_nonneg (x := 100 * q) (by positivity)
    exact_mod_cast this
  · rw [div_le_one (by norm_num)]
    have : roundHalfEven (100 * q) ≤ (100 : ℤ) := by
      refine roundHalfEven_le_of_le ?_
      push_cast
      linarith
    exact_mod_cast this

/-- Store exhibiting the C5 counterexample: two adversary rows share the
name APT-X (the schema does not enforce name uniqueness), each linked to
technique T1003, so `GROUP BY a.name` counts 2 matching events against a
single observed TTP. -/
def dupNameStore : Store :=
  ⟨[], [⟨1, "APT-X"⟩, ⟨2, "APT-X"⟩],
   [⟨"kb1", 1, none, none, some "T1003", none, 1⟩,
    ⟨"kb2", 2, none, none, some "T1003", none, 1⟩]⟩

/-- Counterexample to claim C5 as stated: over this reachable store the
Stage-2 heuristic produces score and confidence `round(2/1, 2) = 2.0`,
violating `score ≤ 1.0`. -/
theorem heuristic_score_exceeds_one :
    correlate_indicator dupNameStore ⟨false, false⟩ "9.9.9.9" ["T1003"] =
      .heuristicMatch 2 [⟨"APT-X", 2, 2⟩] ∧
    ((confidenceValues (correlate_indicator dupNameStore ⟨false, false⟩ "9.9.9.9"
        ["T1003"])).all (fun q => decide (0 ≤ q ∧ q ≤ 1))) = false := by
  have h1 : correlate_indicator dupNameStore ⟨false, false⟩ "9.9.9.9" ["T1003"] =
      .heuristicMatch 2 [⟨"APT-X", 2, 2⟩] := by
    norm_num [correlate_indicator, dupNameStore, heuristicMatches, candidateCounts,
      matchedAdversaryNames, topScore, round2, roundHalfEven, List.insertionSort,
      List.orderedInsert, List.dedup, List.count_cons, List.count_nil, countGE, scoreGE,
      Int.fract]
  refine ⟨h1, ?_⟩
  rw [h1]
  norm_num [confidenceValues]

/-- Claim C5 (amended): the fixed ingestion-policy scores (0.95 for the
Feodo Tracker feed, 0.8 for OTX pulse sightings, 1.0 for MITRE knowledge
facts) and the exact-match confidence 1.0 all lie in [0, 1]; a Stage-2
heuristic score lies in [0, 1] PROVIDED no adversary name matches more
events than there are observed TTPs (duplicate adversary names, or
repeated (adversary, technique) events, can push the matched count past
the observed count and the score above 1). -/
theorem confidence_scores_in_range :
    (∀ items adv_id t infra_map, (buildFeedEventRows items adv_id t infra_map).all
      (fun e => decide (0 ≤ e.confidence_score ∧ e.confidence_score ≤ 1)) = true) ∧
    (∀ pulse_map adv_id_map infra_id_map t,
      (buildOtxEventRows pulse_map adv_id_map infra_id_map t).all
        (fun e => decide (0 ≤ e.confidence_score ∧ e.confidence_score ≤ 1)) = true) ∧
    (∀ name adv_id tid, 0 ≤ (mitreKnowledgeEvent name adv_id tid).confidence_score ∧
      (mitreKnowledgeEvent name adv_id tid).confidence_score ≤ 1) ∧
    (∀ s f2 v ttps row, s.infrastructure.find? (fun r => decide (r.value = v)) = some row →
      correlate_indicator s ⟨false, f2⟩ v ttps =
        .known 1 (directMatches s row.infrastructure_id) ∧ 0 ≤ (1 : ℚ) ∧ (1 : ℚ) ≤ 1) ∧
    (∀ s obs, obs ≠ [] →
      (∀ n ∈ matchedAdversaryNames s obs,
        (matchedAdversaryNames s obs).count n ≤ obs.length) →
      ∀ m ∈ heuristicMatches s obs, 0 ≤ m.score ∧ m.score ≤ 1) := by
  refine ⟨?_, ?_, ?_, ?_, ?_⟩
  · intro items adv_id t infra_map
    rw [List.all_eq_true]
    intro e he
    obtain ⟨item, _, hitem⟩ := List.mem_filterMap.mp he
    obtain ⟨iid, _, hrow⟩ := Option.map_eq_some'.mp hitem
    rw [← hrow]
    show decide (0 ≤ (95 : ℚ)/100 ∧ (95 : ℚ)/100 ≤ 1) = true
    rw [decide_eq_true_eq]
    norm_num
  · intro pulse_map adv_id_map infra_id_map t
    rw [List.all_eq_true]
    intro e he
    obtain ⟨p, _, hin⟩ := List.mem_flatMap.mp he
    cases ha : dget adv_id_map p.author with
    | none => simp only [ha] at hin; simp at hin
    | some aid =>
      simp only [ha] at hin
      by_cases haid : aid = 0
      · rw [if_pos haid] at hin; simp at hin
      · rw [if_neg haid] at hin
        obtain ⟨item, _, hitem⟩ := List.mem_filterMap.mp hin
        cases hi : dget infra_id_map item.value with
        | none => simp only [hi] at hitem; simp at hitem
        | some iid =>
          simp only [hi] at hitem
          by_cases hiid : iid = 0
          · rw [if_pos hiid] at hitem; simp at hitem
          · rw [if_neg hiid] at hitem
            obtain rfl := Option.some_inj.mp hitem
            show decide (0 ≤ (8 : ℚ)/10 ∧ (8 : ℚ)/10 ≤ 1) = true
            rw [decide_eq_true_eq]
            norm_num
  · intro name adv_id tid
    show 0 ≤ (1 : ℚ) ∧ (1 : ℚ) ≤ 1
    norm_num
  · intro s f2 v ttps row hfind
    refine ⟨by simp [correlate_indicator, hfind], by norm_num, le_refl 1⟩
  · intro s obs hne hcount m hm
    unfold heuristicMatches at hm
    rw [List.mem_insertionSort] at hm
    obtain ⟨c, hc, hmk⟩ := List.mem_map.mp hm
    rw [List.mem_insertionSort] at hc
    unfold candidateCounts at hc
    obtain ⟨n, hn, hcn⟩ := List.mem_map.mp hc
    have hnm : n ∈ matchedAdversaryNames s obs := List.mem_dedup.mp hn
    have hcle : (matchedAdversaryNames s obs).count n ≤ obs.length := hcount n hnm
    have hlenpos : 0 < obs.length := List.length_pos.mpr hne
    have hq0 : 0 ≤ ((matchedAdversaryNames s obs).count n : ℚ) / (obs.length : ℚ) := by
      positivity
    have hq1 : ((matchedAdversaryNames s obs).count n : ℚ) / (obs.length : ℚ) ≤ 1 := by
      rw [div_le_one (by exact_mod_cast hlenpos)]
      exact_mod_cast hcle
    have hscore : m.score = round2
        (((matchedAdversaryNames s obs).count n : ℚ) / (obs.length : ℚ)) := by
      rw [← hmk, ← hcn]
    rw [hscore]
    exact round2_bounds hq0 hq1

/-- Witness for the amended C5: at the C2 demo store the heuristic score
`round(2/3, 2)` lies in [0, 1]. -/
theorem confidence_scores_in_range_witness :
    0 ≤ (HeuristicMatch.mk "APT-Y" 2
        (round2 ((2 : ℚ) / ((["T1003", "T1059", "T1071"] : List String).length : ℚ)))).score ∧
    (HeuristicMatch.mk "APT-Y" 2
        (round2 ((2 : ℚ) / ((["T1003", "T1059", "T1071"] : List String).length : ℚ)))).score ≤ 1 :=
  confidence_scores_in_range.2.2.2.2 demoHeuristicStore ["T1003", "T1059", "T1071"]
    (by decide) (by decide)
    ⟨"APT-Y", 2, round2 ((2 : ℚ) / ((["T1003", "T1059", "T1071"] : List String).length : ℚ))⟩
    (by norm_num [heuristicMatches, candidateCounts, matchedAdversaryNames,
      List.insertionSort, List.orderedInsert, List.dedup, List.count_cons, List.count_nil,
      countGE, scoreGE, demoHeuristicStore])
